import Mathlib

/-!
Verification of the trading-time step translator of `backend/services/time_service.py`
(class `TimeService`), together with the negative-step guard of
`backend/routes/time_routes.py`.

The Python code works on `datetime` values; we embed the proleptic Gregorian
calendar (the calendar `datetime` implements) with explicit year/month/day
fields, a successor function modelling `timedelta(days=1)`, and the ordinal
day count that `date.toordinal()` uses (day 1 = 0001-01-01, a Monday), from
which `weekday()` (Monday = 0) is derived.

The holiday table `holidays.country_holidays('CN', years=range(2019, 2021))`
is an external data dependency injected at construction; we model it as an
abstract membership predicate `Date → Bool`, exactly the way the code only
ever queries it (`date.date() in self.china_holidays`).
-/

/-- A calendar date, as the date component of a Python `datetime`. -/
structure Date where
  year : Nat
  month : Nat
  day : Nat
deriving DecidableEq

/-- Gregorian leap-year rule, as implemented by Python `datetime`. -/
def isLeap (y : Nat) : Bool :=
  (y % 4 == 0 && y % 100 != 0) || y % 400 == 0

/-- 1 in a leap year, 0 otherwise. -/
def leapOffset (y : Nat) : Nat :=
  if isLeap y then 1 else 0

/-- Number of days in month `m` of year `y` (Gregorian). -/
def daysInMonth (y m : Nat) : Nat :=
  if m = 2 then 28 + leapOffset y
  else if m = 4 ∨ m = 6 ∨ m = 9 ∨ m = 11 then 30
  else 31

/-- Days in year `y` strictly before month `m`. -/
def daysBeforeMonth (y m : Nat) : Nat :=
  match m with
  | 2 => 31
  | 3 => 59 + leapOffset y
  | 4 => 90 + leapOffset y
  | 5 => 120 + leapOffset y
  | 6 => 151 + leapOffset y
  | 7 => 181 + leapOffset y
  | 8 => 212 + leapOffset y
  | 9 => 243 + leapOffset y
  | 10 => 273 + leapOffset y
  | 11 => 304 + leapOffset y
  | 12 => 334 + leapOffset y
  | _ => 0

/-- Days strictly before year `y` (counting from year 1), as in
`date.toordinal()`. -/
def daysBeforeYear (y : Nat) : Nat :=
  (y - 1) * 365 + (y - 1) / 4 - (y - 1) / 100 + (y - 1) / 400

/-- Python `date.toordinal()`: 0001-01-01 has ordinal 1. -/
def toOrdinal (d : Date) : Nat :=
  daysBeforeYear d.year + daysBeforeMonth d.year d.month + d.day

/-- Python `date.weekday()`: Monday = 0 .. Sunday = 6.
Ordinal 1 (0001-01-01) is a Monday in the proleptic Gregorian calendar. -/
def weekday (d : Date) : Nat :=
  (toOrdinal d + 6) % 7

/-- A structurally valid Gregorian date (what `datetime` can represent,
with `MINYEAR = 1`). -/
def Valid (d : Date) : Prop :=
  1 ≤ d.year ∧ 1 ≤ d.month ∧ d.month ≤ 12 ∧ 1 ≤ d.day ∧ d.day ≤ daysInMonth d.year d.month

instance (d : Date) : Decidable (Valid d) := by
  unfold Valid
  infer_instance

/-- `date + timedelta(days=1)` on valid dates. -/
def nextDay (d : Date) : Date :=
  if d.day < daysInMonth d.year d.month then ⟨d.year, d.month, d.day + 1⟩
  else if d.month < 12 then ⟨d.year, d.month + 1, 1⟩
  else ⟨d.year + 1, 1, 1⟩

/-! ### Rendering and parsing of timestamp strings

`get_accurate_time` renders with `strftime("%Y-%m-%d %H:%M")` (zero-padded
fields); `get_time_step` checks the shape with `str.split` and parses with
`strptime("%Y-%m-%d %H:%M")`. We model both at the character-list level.
-/

/-- The two decimal digits of `n < 100`, zero padded (as `%m`, `%d`, `%H`, `%M`). -/
def digits2 (n : Nat) : List Char :=
  [Nat.digitChar (n / 10 % 10), Nat.digitChar (n % 10)]

/-- The four decimal digits of `n < 10000`, zero padded (as `%Y`). -/
def digits4 (n : Nat) : List Char :=
  [Nat.digitChar (n / 1000 % 10), Nat.digitChar (n / 100 % 10),
   Nat.digitChar (n / 10 % 10), Nat.digitChar (n % 10)]

/-- `strftime("%Y-%m-%d %H:%M")` for a date at hour `h`, minute `m`. -/
def formatTime (d : Date) (h m : Nat) : String :=
  ⟨digits4 d.year ++ '-' :: digits2 d.month ++ '-' :: digits2 d.day ++
    ' ' :: digits2 h ++ ':' :: digits2 m⟩

/-- Split a character list on a separator character (as Python `str.split(sep)`
on inputs without repeated separators; `time_service` splits on a single
space and on a colon). -/
def splitOnChar (sep : Char) : List Char → List (List Char)
  | [] => [[]]
  | c :: cs =>
    if c = sep then [] :: splitOnChar sep cs
    else
      match splitOnChar sep cs with
      | [] => [[c]]
      | t :: ts => (c :: t) :: ts

/-- Read a nonempty all-digit character list as a natural number
(the field parsing inside `strptime`). -/
def readNat? (cs : List Char) : Option Nat :=
  if cs.isEmpty then none
  else if cs.all Char.isDigit then
    some (cs.foldl (fun a c => a * 10 + (c.toNat - 48)) 0)
  else none

/-- The parsing phase of `get_time_step`: the shape check
(`len(s.split()) == 2 and len(s.split()[1].split(':')) == 2`) followed by
`datetime.strptime(s, "%Y-%m-%d %H:%M")`.  CPython's `strptime` matches `%Y`
against exactly four digits, `%m`/`%d`/`%H`/`%M` against one or two digits
with the usual range limits, and the `datetime` constructor then validates
the day against the month length. -/
def parseTime (input : String) : Option (Date × Nat × Nat) :=
  match splitOnChar ' ' input.data with
  | [datePart, timePart] =>
    match splitOnChar ':' timePart with
    | [hourPart, minutePart] =>
      match splitOnChar '-' datePart with
      | [yearPart, monthPart, dayPart] =>
        match readNat? yearPart, readNat? monthPart, readNat? dayPart,
              readNat? hourPart, readNat? minutePart with
        | some y, some mo, some dy, some h, some mi =>
          if yearPart.length = 4 ∧ monthPart.length ≤ 2 ∧ dayPart.length ≤ 2 ∧
              hourPart.length ≤ 2 ∧ minutePart.length ≤ 2 ∧
              1 ≤ y ∧ 1 ≤ mo ∧ mo ≤ 12 ∧ 1 ≤ dy ∧ dy ≤ daysInMonth y mo ∧
              h ≤ 23 ∧ mi ≤ 59 then
            some (⟨y, mo, dy⟩, h, mi)
          else none
        | _, _, _, _, _ => none
      | _ => none
    | _ => none
  | _ => none

/-! ### The service itself -/

/-- The distinct `ValueError`s (and the `IndexError` that list indexing could
raise) of `time_service.py`.  `outOfRange` carries the offending step and the
reported maximum supported step, as the message
`f"时间步长 {time_step} 超出了预计算范围，最大支持 {...}"` does. -/
inductive Err where
  | badFormat (input : String)
  | outOfRange (step : Int) (maxStep : Int)
  | indexError
  | notTradingDay (date : Date)
  | outsideHours (input : String)
deriving DecidableEq

/-- State of a `TimeService` object: the injected holiday predicate, the
precomputed `trading_days` list, and the `_result_cache` dict (modelled as an
association list; entries are only ever inserted for keys that were just
looked up and found absent, so its length is the dict's size). -/
structure TimeService where
  china_holidays : Date → Bool
  trading_days : List Date
  result_cache : List (Int × String)

/-- `TimeService._is_trading_day_raw`. -/
def is_trading_day_raw (H : Date → Bool) (d : Date) : Bool :=
  if 5 ≤ weekday d then false
  else if H d then false
  else true

/-- The `while current_date <= end_date` loop of `_precompute_trading_days`,
with the iteration count made explicit as fuel: the loop body runs once per
calendar day of the inclusive horizon. -/
def buildDays (H : Date → Bool) : Nat → Date → List Date
  | 0, _ => []
  | n + 1, cur =>
    (if is_trading_day_raw H cur then [cur] else []) ++ buildDays H n (nextDay cur)

/-- `base_date = datetime(2019, 1, 2)`. -/
def baseDate : Date := ⟨2019, 1, 2⟩

/-- `end_date = datetime(2020, 12, 31)`. -/
def endDate : Date := ⟨2020, 12, 31⟩

/-- The number of calendar days in `[baseDate, endDate]`:
364 remaining days of 2019 plus the 366 days of leap year 2020. -/
def horizonDays : Nat := 730

/-- `TimeService._precompute_trading_days`. -/
def precompute_trading_days (H : Date → Bool) : List Date :=
  buildDays H horizonDays baseDate

/-- `TimeService.__init__`: store the injected holiday table, precompute
`trading_days`, start with an empty `_result_cache`. -/
def TimeService.init (H : Date → Bool) : TimeService :=
  { china_holidays := H
    trading_days := precompute_trading_days H
    result_cache := [] }

/-- Python list lookup `lst[i]` for an `int` index: nonnegative indices from
the front, negative indices from the end (`lst[i]` is `lst[len + i]` for
`-len ≤ i < 0`), `IndexError` otherwise. -/
def pyGet (l : List Date) (i : Int) : Option Date :=
  if 0 ≤ i then l.get? i.toNat
  else if i.natAbs ≤ l.length then l.get? (l.length - i.natAbs)
  else none

/-- The intraday schedule of `get_accurate_time`, as (hour, minute) of the
`step_in_day` slot.  The code builds the time with `replace(hour=.., minute=..)`
plus a `timedelta` of minutes; we carry the total minutes since midnight
(570 = 09:30, 780 = 13:00) and split into hour and minute. -/
def slot_time (sid : Nat) : Nat × Nat :=
  if sid = 0 then (9, 15)
  else if 1 ≤ sid ∧ sid ≤ 24 then
    let tot := 570 + (sid - 1) * 5
    (tot / 60, tot % 60)
  else if 25 ≤ sid ∧ sid ≤ 48 then
    let tot := 780 + (sid - 25) * 5
    (tot / 60, tot % 60)
  else (15, 0)

/-- The cache-free body of `get_accurate_time` (everything after the cache
probe, before the insertion): Python `//` and `%` are floor division and
floor modulus, hence `Int.fdiv`/`Int.fmod`. -/
def compute_time (days : List Date) (t : Int) : Except Err String :=
  let steps_per_day : Int := 50
  let trading_days_needed := t.fdiv steps_per_day
  let step_in_day := (t.fmod steps_per_day).toNat
  if (days.length : Int) ≤ trading_days_needed then
    .error (.outOfRange t ((days.length : Int) * 50 - 1))
  else
    match pyGet days trading_days_needed with
    | none => .error .indexError
    | some d =>
      let hm := slot_time step_in_day
      .ok (formatTime d hm.1 hm.2)

/-- The `time_step in self._result_cache` probe plus
`self._result_cache[time_step]` read. -/
def cache_lookup (c : List (Int × String)) (t : Int) : Option String :=
  match c with
  | [] => none
  | (k, v) :: rest => if k = t then some v else cache_lookup rest t

/-- `TimeService.get_accurate_time`: probe the cache, otherwise compute, and
store the result only while the cache holds fewer than 10000 entries.
Returns the result together with the post-call object state. -/
def TimeService.get_accurate_time (s : TimeService) (t : Int) :
    Except Err String × TimeService :=
  match cache_lookup s.result_cache t with
  | some v => (.ok v, s)
  | none =>
    match compute_time s.trading_days t with
    | .error e => (.error e, s)
    | .ok r =>
      if s.result_cache.length < 10000 then
        (.ok r, { s with result_cache := (t, r) :: s.result_cache })
      else (.ok r, s)

/-- `TimeService.clear_cache`. -/
def TimeService.clear_cache (s : TimeService) : TimeService :=
  { s with result_cache := [] }

/-- `TimeService.get_cache_stats`: cache size, number of trading days,
maximum supported time step. -/
def TimeService.get_cache_stats (s : TimeService) : Nat × Nat × Int :=
  (s.result_cache.length, s.trading_days.length, (s.trading_days.length : Int) * 50 - 1)

/-- `round(x / 5)` for a natural `x` as computed by `get_time_step`
(`round(minutes / 5) * 5` followed by `// 5`): since `x` is an integer,
`x / 5` is never half way between two integers, so Python's
round-half-to-even coincides with rounding to the nearest integer,
which on naturals is `(x + 2) / 5`. -/
def round_to_slot (x : Nat) : Nat := (x + 2) / 5

/-- The `elif` chain of `get_time_step` classifying (hour, minute) into a
`step_in_day`, `none` meaning the trailing `raise ValueError(... 不在交易时间内)`. -/
def classify_step (hour minute : Nat) : Option Nat :=
  if hour = 9 ∧ 10 ≤ minute ∧ minute ≤ 20 then some 0
  else if hour = 9 ∧ 30 ≤ minute then some (1 + round_to_slot (minute - 30))
  else if hour = 10 then some (1 + round_to_slot (30 + minute))
  else if hour = 11 ∧ minute ≤ 30 then some (1 + round_to_slot (90 + minute))
  else if hour = 13 then some (25 + round_to_slot minute)
  else if hour = 14 ∧ minute ≤ 60 then some (25 + round_to_slot (60 + minute))
  else if hour = 15 ∧ minute ≤ 5 then some 49
  else none

/-- The `for i, trading_day in enumerate(self.trading_days)` scan of
`get_time_step`, breaking at the first date equal to the input date. -/
def find_day_index (days : List Date) (d : Date) : Option Nat :=
  match days with
  | [] => none
  | t :: rest => if t = d then some 0 else (find_day_index rest d).map (· + 1)

/-- `TimeService.get_time_step`: parse, look the date up in `trading_days`,
classify the time of day, and flatten to `index * 50 + step_in_day`. -/
def TimeService.get_time_step (s : TimeService) (input : String) : Except Err Nat :=
  match parseTime input with
  | none => .error (.badFormat input)
  | some (d, hour, minute) =>
    match find_day_index s.trading_days d with
    | none => .error (.notTradingDay d)
    | some i =>
      match classify_step hour minute with
      | none => .error (.outsideHours input)
      | some sid => .ok (i * 50 + sid)

/-- The `if time_step < 0: return 400` guard of the `/api/times` route in
`backend/routes/time_routes.py`; the service itself performs no such check. -/
def route_rejects_negative (t : Int) : Bool :=
  decide (t < 0)

/-- Cache consistency: every cached entry is the cache-free recomputation of
its key.  This holds in every reachable state and makes the cache invisible
in results. -/
def CacheOK (s : TimeService) : Prop :=
  ∀ t v, cache_lookup s.result_cache t = some v → compute_time s.trading_days t = .ok v

/-- The empty holiday table: a concrete instantiation of the injected
configuration, used to evaluate the model on closed inputs. -/
def noHolidays : Date → Bool := fun _ => false

deriving instance DecidableEq for Except

/-! ### Calendar arithmetic lemmas -/

theorem daysInMonth_bounds (y m : Nat) : 28 ≤ daysInMonth y m ∧ daysInMonth y m ≤ 31 := by
  unfold daysInMonth leapOffset
  split_ifs <;> omega

theorem leapOffset_eq (y : Nat) :
    leapOffset y = if (y % 4 = 0 ∧ y % 100 ≠ 0) ∨ y % 400 = 0 then 1 else 0 := by
  unfold leapOffset isLeap
  by_cases h1 : y % 4 = 0 <;> by_cases h2 : y % 100 = 0 <;> by_cases h3 : y % 400 = 0 <;>
    simp [h1, h2, h3]

theorem daysBeforeMonth_succ (y m : Nat) (h1 : 1 ≤ m) (h2 : m ≤ 11) :
    daysBeforeMonth y (m + 1) = daysBeforeMonth y m + daysInMonth y m := by
  interval_cases m <;> simp [daysBeforeMonth, daysInMonth] <;> omega

theorem daysBeforeMonth_last (y m : Nat) (h1 : 1 ≤ m) (h2 : m ≤ 12) :
    daysBeforeMonth y m + daysInMonth y m ≤ 365 + leapOffset y := by
  interval_cases m <;> simp [daysBeforeMonth, daysInMonth] <;> omega

set_option maxHeartbeats 1000000 in
theorem daysBeforeYear_succ (y : Nat) (h : 1 ≤ y) :
    daysBeforeYear (y + 1) = daysBeforeYear y + 365 + leapOffset y := by
  rw [leapOffset_eq]
  unfold daysBeforeYear
  split_ifs with hl <;> omega

theorem daysBeforeYear_mono {y y' : Nat} (h : y ≤ y') :
    daysBeforeYear y ≤ daysBeforeYear y' := by
  induction y', h using Nat.le_induction with
  | base => exact le_refl _
  | succ n hn ih =>
    rcases Nat.eq_zero_or_pos n with h0 | h0
    · subst h0
      have hy0 : y = 0 := by omega
      subst hy0
      exact Nat.le_refl _
    · rw [daysBeforeYear_succ n h0]
      omega

theorem toOrdinal_nextDay (d : Date) (hv : Valid d) :
    toOrdinal (nextDay d) = toOrdinal d + 1 := by
  obtain ⟨hy, hm1, hm2, hd1, hd2⟩ := hv
  unfold nextDay
  split_ifs with h1 h2
  · simp only [toOrdinal]
    omega
  · have hm11 : d.month ≤ 11 := by omega
    have hstep := daysBeforeMonth_succ d.year d.month hm1 hm11
    simp only [toOrdinal]
    omega
  · have hm12 : d.month = 12 := by omega
    have hdy := daysBeforeYear_succ d.year hy
    have h31 : daysInMonth d.year 12 = 31 := rfl
    have h334 : daysBeforeMonth d.year 12 = 334 + leapOffset d.year := rfl
    have h0 : daysBeforeMonth (d.year + 1) 1 = 0 := rfl
    simp only [toOrdinal]
    rw [hm12] at h1 hd2 ⊢
    omega

theorem valid_nextDay (d : Date) (hv : Valid d) : Valid (nextDay d) := by
  obtain ⟨hy, hm1, hm2, hd1, hd2⟩ := hv
  have h1b := daysInMonth_bounds d.year (d.month + 1)
  have h2b := daysInMonth_bounds (d.year + 1) 1
  unfold nextDay
  split_ifs with h1 h2 <;> simp only [Valid] <;> omega

theorem valid_iterate (d : Date) (hv : Valid d) (k : Nat) : Valid (nextDay^[k] d) := by
  induction k with
  | zero => simpa using hv
  | succ n ih =>
    rw [Function.iterate_succ_apply']
    exact valid_nextDay _ ih

theorem toOrdinal_iterate (d : Date) (hv : Valid d) (k : Nat) :
    toOrdinal (nextDay^[k] d) = toOrdinal d + k := by
  induction k with
  | zero => simp
  | succ n ih =>
    rw [Function.iterate_succ_apply', toOrdinal_nextDay _ (valid_iterate d hv n), ih]
    omega

theorem toOrdinal_year_bounds (d : Date) (hv : Valid d) :
    daysBeforeYear d.year < toOrdinal d ∧ toOrdinal d ≤ daysBeforeYear (d.year + 1) := by
  obtain ⟨hy, hm1, hm2, hd1, hd2⟩ := hv
  have hlast := daysBeforeMonth_last d.year d.month hm1 hm2
  have hdy := daysBeforeYear_succ d.year hy
  simp only [toOrdinal]
  omega

theorem daysBeforeMonth_mono (y : Nat) {m m' : Nat} (h1 : 1 ≤ m) (h2 : m ≤ m')
    (h3 : m' ≤ 12) : daysBeforeMonth y m ≤ daysBeforeMonth y m' := by
  induction m', h2 using Nat.le_induction with
  | base => exact le_refl _
  | succ n hn ih =>
    have hb := daysBeforeMonth_succ y n (by omega) (by omega)
    have := ih (by omega)
    omega

theorem toOrdinal_lt_of_year_lt {a b : Date} (ha : Valid a) (hb : Valid b)
    (h : a.year < b.year) : toOrdinal a < toOrdinal b := by
  have h1 := (toOrdinal_year_bounds a ha).2
  have h2 := (toOrdinal_year_bounds b hb).1
  have h3 : daysBeforeYear (a.year + 1) ≤ daysBeforeYear b.year :=
    daysBeforeYear_mono (by omega)
  omega

theorem toOrdinal_lt_of_month_lt {a b : Date} (ha : Valid a) (hb : Valid b)
    (hy : a.year = b.year) (h : a.month < b.month) : toOrdinal a < toOrdinal b := by
  obtain ⟨_, ham1, ham2, had1, had2⟩ := ha
  obtain ⟨_, hbm1, hbm2, hbd1, hbd2⟩ := hb
  have hstep := daysBeforeMonth_succ a.year a.month ham1 (by omega)
  have hmono : daysBeforeMonth a.year (a.month + 1) ≤ daysBeforeMonth a.year b.month :=
    daysBeforeMonth_mono a.year (by omega) (by omega) hbm2
  simp only [toOrdinal]
  rw [← hy]
  omega

theorem toOrdinal_inj {a b : Date} (ha : Valid a) (hb : Valid b)
    (h : toOrdinal a = toOrdinal b) : a = b := by
  rcases Nat.lt_trichotomy a.year b.year with hy | hy | hy
  · exact absurd h (Nat.ne_of_lt (toOrdinal_lt_of_year_lt ha hb hy))
  · rcases Nat.lt_trichotomy a.month b.month with hm | hm | hm
    · exact absurd h (Nat.ne_of_lt (toOrdinal_lt_of_month_lt ha hb hy hm))
    · have hd : a.day = b.day := by
        simp only [toOrdinal] at h
        rw [hy, hm] at h
        omega
      cases a; cases b
      simp_all
    · exact absurd h.symm (Nat.ne_of_lt (toOrdinal_lt_of_month_lt hb ha hy.symm hm))
  · exact absurd h.symm (Nat.ne_of_lt (toOrdinal_lt_of_year_lt hb ha hy))

/-! ### The precomputed trading-day calendar -/

theorem is_trading_day_raw_eq_true (H : Date → Bool) (d : Date) :
    is_trading_day_raw H d = true ↔ weekday d < 5 ∧ H d = false := by
  unfold is_trading_day_raw
  split_ifs with h5 hH <;> simp_all

theorem mem_buildDays (H : Date → Bool) (n : Nat) (cur x : Date) :
    x ∈ buildDays H n cur ↔
      ∃ k, k < n ∧ nextDay^[k] cur = x ∧ is_trading_day_raw H x = true := by
  induction n generalizing cur with
  | zero => simp [buildDays]
  | succ n ih =>
    simp only [buildDays, List.mem_append]
    constructor
    · intro hx
      rcases hx with hx | hx
      · by_cases hp : is_trading_day_raw H cur = true
        · rw [if_pos hp] at hx
          simp only [List.mem_singleton] at hx
          subst hx
          exact ⟨0, Nat.succ_pos n, rfl, hp⟩
        · rw [if_neg hp] at hx
          simp at hx
      · obtain ⟨k, hk, hit, hraw⟩ := (ih (nextDay cur)).1 hx
        refine ⟨k + 1, by omega, ?_, hraw⟩
        rw [Function.iterate_succ_apply]
        exact hit
    · rintro ⟨k, hk, hit, hraw⟩
      cases k with
      | zero =>
        simp only [Function.iterate_zero, id] at hit
        subst hit
        left
        rw [if_pos hraw]
        simp
      | succ k =>
        right
        apply (ih (nextDay cur)).2
        rw [Function.iterate_succ_apply] at hit
        exact ⟨k, by omega, hit, hraw⟩

theorem pairwise_buildDays (H : Date → Bool) (n : Nat) (cur : Date) (hv : Valid cur) :
    List.Pairwise (fun a b => toOrdinal a < toOrdinal b) (buildDays H n cur) := by
  induction n generalizing cur with
  | zero => simp [buildDays]
  | succ n ih =>
    simp only [buildDays]
    by_cases hp : is_trading_day_raw H cur = true
    · rw [if_pos hp]
      simp only [List.singleton_append, List.pairwise_cons]
      constructor
      · intro y hy
        obtain ⟨k, hk, hit, _⟩ := (mem_buildDays H n (nextDay cur) y).1 hy
        subst hit
        have := toOrdinal_iterate (nextDay cur) (valid_nextDay cur hv) k
        have hnd := toOrdinal_nextDay cur hv
        omega
      · exact ih (nextDay cur) (valid_nextDay cur hv)
    · rw [if_neg hp]
      simp only [List.nil_append]
      exact ih (nextDay cur) (valid_nextDay cur hv)

theorem valid_baseDate : Valid baseDate := by decide

theorem toOrdinal_baseDate : toOrdinal baseDate = 737061 := by decide

theorem toOrdinal_endDate : toOrdinal endDate = 737790 := by decide

/-- The characterization of `trading_days`: exactly the structurally valid
dates of the inclusive horizon that pass the weekend and holiday filters. -/
theorem mem_trading_days (H : Date → Bool) (x : Date) :
    x ∈ precompute_trading_days H ↔
      Valid x ∧ toOrdinal baseDate ≤ toOrdinal x ∧ toOrdinal x ≤ toOrdinal endDate ∧
        weekday x < 5 ∧ H x = false := by
  have hEnd : toOrdinal endDate = toOrdinal baseDate + 729 := by decide
  unfold precompute_trading_days horizonDays
  rw [mem_buildDays]
  constructor
  · rintro ⟨k, hk, hit, hraw⟩
    subst hit
    have hvx := valid_iterate baseDate valid_baseDate k
    have hox := toOrdinal_iterate baseDate valid_baseDate k
    obtain ⟨hw, hH⟩ := (is_trading_day_raw_eq_true H _).1 hraw
    exact ⟨hvx, by omega, by omega, hw, hH⟩
  · rintro ⟨hvx, hlo, hhi, h5, hH⟩
    refine ⟨toOrdinal x - toOrdinal baseDate, by omega, ?_, ?_⟩
    · have hvk := valid_iterate baseDate valid_baseDate (toOrdinal x - toOrdinal baseDate)
      have hok := toOrdinal_iterate baseDate valid_baseDate (toOrdinal x - toOrdinal baseDate)
      exact toOrdinal_inj hvk hvx (by omega)
    · exact (is_trading_day_raw_eq_true H x).2 ⟨h5, hH⟩

theorem pairwise_trading_days (H : Date → Bool) :
    List.Pairwise (fun a b => toOrdinal a < toOrdinal b) (precompute_trading_days H) :=
  pairwise_buildDays H horizonDays baseDate valid_baseDate

theorem year_in_horizon (x : Date) (hv : Valid x)
    (hlo : toOrdinal baseDate ≤ toOrdinal x) (hhi : toOrdinal x ≤ toOrdinal endDate) :
    2019 ≤ x.year ∧ x.year ≤ 2020 := by
  have hb := toOrdinal_year_bounds x hv
  have hc1 := toOrdinal_baseDate
  have hc2 := toOrdinal_endDate
  constructor
  · by_contra hlt
    push_neg at hlt
    have hmono : daysBeforeYear (x.year + 1) ≤ daysBeforeYear 2019 :=
      daysBeforeYear_mono (by omega)
    have h19 : daysBeforeYear 2019 = 737059 := by decide
    omega
  · by_contra hgt
    push_neg at hgt
    have hmono : daysBeforeYear 2021 ≤ daysBeforeYear x.year :=
      daysBeforeYear_mono (by omega)
    have h21 : daysBeforeYear 2021 = 737790 := by decide
    omega

/-- Every calendar entry is a valid date with a four-digit year in
{2019, 2020}: what the format/parse round trip needs. -/
theorem trading_days_elem_facts (H : Date → Bool) (x : Date)
    (hx : x ∈ precompute_trading_days H) :
    Valid x ∧ 2019 ≤ x.year ∧ x.year ≤ 2020 := by
  obtain ⟨hv, hlo, hhi, _, _⟩ := (mem_trading_days H x).1 hx
  obtain ⟨h1, h2⟩ := year_in_horizon x hv hlo hhi
  exact ⟨hv, h1, h2⟩

theorem nodup_trading_days (H : Date → Bool) : (precompute_trading_days H).Nodup := by
  apply List.Pairwise.imp _ (pairwise_trading_days H)
  intro a b hab heq
  subst heq
  omega

/-! ### Format / parse round trip -/

theorem splitOnChar_of_not_mem (sep : Char) (l : List Char) (h : sep ∉ l) :
    splitOnChar sep l = [l] := by
  induction l with
  | nil => rfl
  | cons c cs ih =>
    have h1 : ¬(c = sep) := fun e => h (by simp [e])
    have h2 : sep ∉ cs := fun e => h (by simp [e])
    simp only [splitOnChar, if_neg h1, ih h2]

theorem splitOnChar_append (sep : Char) (a b : List Char) (h : sep ∉ a) :
    splitOnChar sep (a ++ sep :: b) = a :: splitOnChar sep b := by
  induction a with
  | nil =>
    simp [splitOnChar]
  | cons c a ih =>
    have h1 : ¬(c = sep) := fun e => h (by simp [e])
    have h2 : sep ∉ a := fun e => h (by simp [e])
    simp [splitOnChar, h1, ih h2]

theorem readNat_digits2 : ∀ n, n < 100 → readNat? (digits2 n) = some n := by decide

theorem digits2_no_space : ∀ n, n < 100 → ' ' ∉ digits2 n := by decide

theorem digits2_no_colon : ∀ n, n < 100 → ':' ∉ digits2 n := by decide

theorem digits2_no_dash : ∀ n, n < 100 → '-' ∉ digits2 n := by decide

theorem splitOnChar_two (sep : Char) (a b : List Char) (ha : sep ∉ a) (hb : sep ∉ b) :
    splitOnChar sep (a ++ sep :: b) = [a, b] := by
  rw [splitOnChar_append sep a b ha, splitOnChar_of_not_mem sep b hb]

theorem parseTime_formatTime (d : Date) (h m : Nat) (hv : Valid d)
    (hy1 : 2019 ≤ d.year) (hy2 : d.year ≤ 2020) (hh : h ≤ 23) (hmi : m ≤ 59) :
    parseTime (formatTime d h m) = some (d, h, m) := by
  obtain ⟨hge1, hm1, hm2, hd1, hd2⟩ := hv
  have hdb := daysInMonth_bounds d.year d.month
  have hyd : d.year = 2019 ∨ d.year = 2020 := by omega
  have hy_space : ' ' ∉ digits4 d.year := by rcases hyd with e | e <;> rw [e] <;> decide
  have hy_dash : '-' ∉ digits4 d.year := by rcases hyd with e | e <;> rw [e] <;> decide
  have hy_read : readNat? (digits4 d.year) = some d.year := by
    rcases hyd with e | e <;> rw [e] <;> decide
  have hmo100 : d.month < 100 := by omega
  have hdy100 : d.day < 100 := by omega
  have hh100 : h < 100 := by omega
  have hm100 : m < 100 := by omega
  have hA : ' ' ∉ (digits4 d.year ++ '-' :: digits2 d.month ++ '-' :: digits2 d.day) := by
    intro hmem
    rcases List.mem_append.1 hmem with hx | hx
    · rcases List.mem_append.1 hx with hx2 | hx2
      · exact hy_space hx2
      · rcases List.mem_cons.1 hx2 with he | hx3
        · exact absurd he (by decide)
        · exact digits2_no_space _ hmo100 hx3
    · rcases List.mem_cons.1 hx with he | hx3
      · exact absurd he (by decide)
      · exact digits2_no_space _ hdy100 hx3
  have hB : ' ' ∉ (digits2 h ++ ':' :: digits2 m) := by
    intro hmem
    rcases List.mem_append.1 hmem with hx | hx
    · exact digits2_no_space _ hh100 hx
    · rcases List.mem_cons.1 hx with he | hx2
      · exact absurd he (by decide)
      · exact digits2_no_space _ hm100 hx2
  have hsplit_space : splitOnChar ' ' (formatTime d h m).data =
      [digits4 d.year ++ '-' :: digits2 d.month ++ '-' :: digits2 d.day,
       digits2 h ++ ':' :: digits2 m] := by
    have hre : (formatTime d h m).data =
        (digits4 d.year ++ '-' :: digits2 d.month ++ '-' :: digits2 d.day) ++
          ' ' :: (digits2 h ++ ':' :: digits2 m) := by
      simp [formatTime, List.append_assoc]
    rw [hre]
    exact splitOnChar_two ' ' _ _ hA hB
  have hsplit_colon : splitOnChar ':' (digits2 h ++ ':' :: digits2 m) =
      [digits2 h, digits2 m] :=
    splitOnChar_two ':' _ _ (digits2_no_colon _ hh100) (digits2_no_colon _ hm100)
  have hsplit_dash :
      splitOnChar '-' (digits4 d.year ++ '-' :: digits2 d.month ++ '-' :: digits2 d.day) =
        [digits4 d.year, digits2 d.month, digits2 d.day] := by
    rw [show digits4 d.year ++ '-' :: digits2 d.month ++ '-' :: digits2 d.day =
          digits4 d.year ++ '-' :: (digits2 d.month ++ '-' :: digits2 d.day) from by
        simp [List.append_assoc]]
    rw [splitOnChar_append '-' _ _ hy_dash]
    rw [splitOnChar_two '-' _ _ (digits2_no_dash _ hmo100) (digits2_no_dash _ hdy100)]
  unfold parseTime
  simp only [hsplit_space, hsplit_colon, hsplit_dash, hy_read,
    readNat_digits2 _ hmo100, readNat_digits2 _ hdy100,
    readNat_digits2 _ hh100, readNat_digits2 _ hm100]
  rw [if_pos]
  exact ⟨rfl, Nat.le_refl 2, Nat.le_refl 2, Nat.le_refl 2, Nat.le_refl 2,
    by omega, hm1, hm2, hd1, hd2, hh, hmi⟩

/-! ### Service-level helper lemmas -/

theorem classify_slot_time : ∀ sid, sid < 50 →
    classify_step (slot_time sid).1 (slot_time sid).2 = some sid := by decide

theorem slot_time_bounds : ∀ sid, sid < 50 →
    (slot_time sid).1 ≤ 23 ∧ (slot_time sid).2 ≤ 59 := by decide

theorem find_day_index_get (days : List Date) (hnd : days.Nodup) (i : Nat)
    (hi : i < days.length) : find_day_index days (days.get ⟨i, hi⟩) = some i := by
  induction days generalizing i with
  | nil => simp at hi
  | cons t rest ih =>
    rcases List.nodup_cons.1 hnd with ⟨htr, hrest⟩
    cases i with
    | zero => simp [find_day_index]
    | succ j =>
      have hj : j < rest.length := by simpa using hi
      have hget : (t :: rest).get ⟨j + 1, hi⟩ = rest.get ⟨j, hj⟩ := rfl
      have hne : ¬(t = rest.get ⟨j, hj⟩) := by
        intro e
        exact htr (e ▸ List.get_mem rest j hj)
      rw [hget]
      simp only [find_day_index, if_neg hne, ih hrest j hj]
      rfl

theorem find_day_index_eq_none (days : List Date) (d : Date) :
    find_day_index days d = none ↔ d ∉ days := by
  induction days with
  | nil => simp [find_day_index]
  | cons t rest ih =>
    by_cases ht : t = d
    · subst ht
      simp [find_day_index]
    · simp only [find_day_index, if_neg ht, List.mem_cons]
      cases hfd : find_day_index rest d with
      | none =>
        constructor
        · intro _ hc
          rcases hc with he | hm
          · exact ht he.symm
          · exact (ih.1 hfd) hm
        · intro _
          rfl
      | some j =>
        constructor
        · intro hx
          exact absurd hx (by simp)
        · intro hnmem
          exfalso
          have hdm : d ∈ rest := by
            by_contra hnm
            rw [ih.2 hnm] at hfd
            exact absurd hfd (by simp)
          exact hnmem (Or.inr hdm)

theorem cache_lookup_mem (c : List (Int × String)) (t : Int) (v : String)
    (h : cache_lookup c t = some v) : (t, v) ∈ c := by
  induction c with
  | nil => simp [cache_lookup] at h
  | cons p rest ih =>
    obtain ⟨k, w⟩ := p
    simp only [cache_lookup] at h
    by_cases hk : k = t
    · rw [if_pos hk] at h
      injection h with hw
      subst hw
      subst hk
      simp
    · rw [if_neg hk] at h
      exact List.mem_cons_of_mem _ (ih h)

theorem fmod_fdiv_char (t : Int) :
    50 * t.fdiv 50 + t.fmod 50 = t ∧ 0 ≤ t.fmod 50 ∧ t.fmod 50 < 50 := by
  have h1 := Int.fmod_add_fdiv t 50
  exact ⟨by omega, Int.fmod_nonneg' t (by omega), Int.fmod_lt_of_pos t (by omega)⟩

theorem compute_time_nat_ok (days : List Date) (t : Nat) (h : t / 50 < days.length) :
    compute_time days (t : Int) =
      .ok (formatTime (days.get ⟨t / 50, h⟩) (slot_time (t % 50)).1
        (slot_time (t % 50)).2) := by
  have hdiv : (t : Int).fdiv 50 = ((t / 50 : Nat) : Int) := (Int.ofNat_fdiv t 50).symm
  have hmod : (t : Int).fmod 50 = ((t % 50 : Nat) : Int) := (Int.ofNat_fmod t 50).symm
  simp only [compute_time, hdiv, hmod, Int.toNat_ofNat]
  rw [if_neg (by exact_mod_cast Nat.not_le.2 h)]
  unfold pyGet
  rw [if_pos (by exact_mod_cast Nat.zero_le _), Int.toNat_ofNat, List.get?_eq_get h]

theorem compute_time_nat_err (days : List Date) (t : Nat) (h : days.length ≤ t / 50) :
    compute_time days (t : Int) =
      .error (.outOfRange (t : Int) ((days.length : Int) * 50 - 1)) := by
  have hdiv : (t : Int).fdiv 50 = ((t / 50 : Nat) : Int) := (Int.ofNat_fdiv t 50).symm
  simp only [compute_time, hdiv]
  rw [if_pos (by exact_mod_cast h)]

theorem get_accurate_time_preserves_days (s : TimeService) (t : Int) :
    (TimeService.get_accurate_time s t).2.trading_days = s.trading_days := by
  unfold TimeService.get_accurate_time
  cases h1 : cache_lookup s.result_cache t with
  | some v => rfl
  | none =>
    cases h2 : compute_time s.trading_days t with
    | error e => rfl
    | ok r =>
      by_cases hlen : s.result_cache.length < 10000
      · simp only [if_pos hlen]
      · simp only [if_neg hlen]

theorem get_accurate_time_empty_cache (s : TimeService) (t : Int)
    (hc : s.result_cache = []) :
    (TimeService.get_accurate_time s t).1 = compute_time s.trading_days t := by
  unfold TimeService.get_accurate_time
  rw [hc]
  cases h2 : compute_time s.trading_days t with
  | error e => rfl
  | ok r =>
    by_cases hlen : s.result_cache.length < 10000
    · simp [cache_lookup]
    · simp [cache_lookup]

/-! ### Claim theorems -/

/-- C1: Round-trip law: for every integer `step` with
`0 ≤ step < len(trading_days) * 50`, `get_time_step (get_accurate_time step)`
returns exactly `step`: the inverse's nearest-multiple-of-5 rounding never
moves a timestamp produced by the forward conversion to a different slot. -/
theorem claim_C1_round_trip (H : Date → Bool) (step : Nat)
    (h : step < (TimeService.init H).trading_days.length * 50) :
    ∃ ts : String,
      (TimeService.get_accurate_time (TimeService.init H) (step : Int)).1 = .ok ts ∧
      TimeService.get_time_step
        (TimeService.get_accurate_time (TimeService.init H) (step : Int)).2 ts =
        .ok step := by
  have hlen : (TimeService.init H).trading_days.length =
      (precompute_trading_days H).length := rfl
  have hq : step / 50 < (precompute_trading_days H).length := by omega
  have hr : step % 50 < 50 := Nat.mod_lt _ (by omega)
  have hres1 : (TimeService.get_accurate_time (TimeService.init H) (step : Int)).1 =
      .ok (formatTime ((precompute_trading_days H).get ⟨step / 50, hq⟩)
        (slot_time (step % 50)).1 (slot_time (step % 50)).2) := by
    rw [get_accurate_time_empty_cache _ _ rfl]
    exact compute_time_nat_ok (precompute_trading_days H) step hq
  have hdmem : (precompute_trading_days H).get ⟨step / 50, hq⟩ ∈
      precompute_trading_days H := List.get_mem _ _ _
  obtain ⟨hv, hy1, hy2⟩ := trading_days_elem_facts H _ hdmem
  obtain ⟨hhb, hmb⟩ := slot_time_bounds (step % 50) hr
  have hparse := parseTime_formatTime _ _ _ hv hy1 hy2 hhb hmb
  have hdays2 :
      (TimeService.get_accurate_time (TimeService.init H) (step : Int)).2.trading_days =
        precompute_trading_days H := get_accurate_time_preserves_days _ _
  refine ⟨_, hres1, ?_⟩
  simp only [TimeService.get_time_step, hdays2, hparse,
    find_day_index_get _ (nodup_trading_days H) (step / 50) hq,
    classify_slot_time (step % 50) hr]
  congr 1
  omega

/-- C1 witness: the round trip evaluated at the concrete step 123 of the
service built over the empty holiday table. -/
theorem claim_C1_round_trip_witness :
    ∃ ts : String,
      (TimeService.get_accurate_time (TimeService.init noHolidays) ((123 : Nat) : Int)).1 =
        .ok ts ∧
      TimeService.get_time_step
        (TimeService.get_accurate_time (TimeService.init noHolidays) ((123 : Nat) : Int)).2
        ts = .ok 123 :=
  claim_C1_round_trip noHolidays 123 (by set_option maxRecDepth 4000 in decide)

theorem buildDays_succ (H : Date → Bool) (n : Nat) (cur : Date) :
    buildDays H (n + 1) cur =
      (if is_trading_day_raw H cur then [cur] else []) ++ buildDays H n (nextDay cur) := rfl

/-- C4: forward slot-to-time mapping: writing `slot = step mod 50`, the result
is the timestamp of trading day `step div 50` at 09:15 for slot 0, at
09:30 + (slot-1)·5 minutes for slots 1..24, at 13:00 + (slot-25)·5 minutes for
slots 25..48 (so slot 24 is 11:25, slot 25 is 13:00, slot 48 is 14:55), and at
15:00 for slot 49, rendered as `YYYY-MM-DD HH:MM` without seconds; with the
horizon start 2019-01-02 a trading day, steps 0 and 1 render as
"2019-01-02 09:15" and "2019-01-02 09:30". -/
theorem claim_C4_forward_mapping (H : Date → Bool) (step : Nat)
    (h : step < (TimeService.init H).trading_days.length * 50) :
    (∃ hq : step / 50 < (precompute_trading_days H).length,
      (step % 50 = 0 →
        (TimeService.get_accurate_time (TimeService.init H) (step : Int)).1 =
          .ok (formatTime ((precompute_trading_days H).get ⟨step / 50, hq⟩) 9 15)) ∧
      (1 ≤ step % 50 → step % 50 ≤ 24 →
        (TimeService.get_accurate_time (TimeService.init H) (step : Int)).1 =
          .ok (formatTime ((precompute_trading_days H).get ⟨step / 50, hq⟩)
            ((570 + (step % 50 - 1) * 5) / 60) ((570 + (step % 50 - 1) * 5) % 60))) ∧
      (25 ≤ step % 50 → step % 50 ≤ 48 →
        (TimeService.get_accurate_time (TimeService.init H) (step : Int)).1 =
          .ok (formatTime ((precompute_trading_days H).get ⟨step / 50, hq⟩)
            ((780 + (step % 50 - 25) * 5) / 60) ((780 + (step % 50 - 25) * 5) % 60))) ∧
      (step % 50 = 49 →
        (TimeService.get_accurate_time (TimeService.init H) (step : Int)).1 =
          .ok (formatTime ((precompute_trading_days H).get ⟨step / 50, hq⟩) 15 0))) ∧
    slot_time 24 = (11, 25) ∧ slot_time 25 = (13, 0) ∧ slot_time 48 = (14, 55) ∧
    (H baseDate = false →
      (TimeService.get_accurate_time (TimeService.init H) ((0 : Nat) : Int)).1 =
        .ok ("2019-01-02 09:15") ∧
      (TimeService.get_accurate_time (TimeService.init H) ((1 : Nat) : Int)).1 =
        .ok ("2019-01-02 09:30")) := by
  have hlen : (TimeService.init H).trading_days.length =
      (precompute_trading_days H).length := rfl
  have hq : step / 50 < (precompute_trading_days H).length := by omega
  have hres : ∀ (t : Nat) (hqt : t / 50 < (precompute_trading_days H).length),
      (TimeService.get_accurate_time (TimeService.init H) (t : Int)).1 =
        .ok (formatTime ((precompute_trading_days H).get ⟨t / 50, hqt⟩)
          (slot_time (t % 50)).1 (slot_time (t % 50)).2) := fun t hqt => by
    rw [get_accurate_time_empty_cache _ _ rfl]
    exact compute_time_nat_ok (precompute_trading_days H) t hqt
  refine ⟨⟨hq, ?_, ?_, ?_, ?_⟩, by decide, by decide, by decide, ?_⟩
  · intro h0
    rw [hres step hq, h0]
    rfl
  · intro h1 h24
    rw [hres step hq]
    have hst : slot_time (step % 50) =
        ((570 + (step % 50 - 1) * 5) / 60, (570 + (step % 50 - 1) * 5) % 60) := by
      simp only [slot_time]
      rw [if_neg (by omega), if_pos (by omega)]
    rw [hst]
  · intro h25 h48
    rw [hres step hq]
    have hst : slot_time (step % 50) =
        ((780 + (step % 50 - 25) * 5) / 60, (780 + (step % 50 - 25) * 5) % 60) := by
      simp only [slot_time]
      rw [if_neg (by omega), if_neg (by omega), if_pos (by omega)]
    rw [hst]
  · intro h49
    rw [hres step hq, h49]
    rfl
  · intro hHb
    have hraw : is_trading_day_raw H baseDate = true :=
      (is_trading_day_raw_eq_true H baseDate).2 ⟨by decide, hHb⟩
    have hdays : precompute_trading_days H =
        baseDate :: buildDays H 729 (nextDay baseDate) := by
      show buildDays H 730 baseDate = _
      rw [show (730 : Nat) = 729 + 1 from rfl, buildDays_succ, if_pos hraw]
      rfl
    have hq0 : (0 : Nat) / 50 < (precompute_trading_days H).length := by
      rw [hdays]
      simp
    have hq1 : (1 : Nat) / 50 < (precompute_trading_days H).length := by
      rw [hdays]
      simp
    have hget0 : (precompute_trading_days H).get ⟨0 / 50, hq0⟩ = baseDate := by
      simp [hdays]
    have hget1 : (precompute_trading_days H).get ⟨1 / 50, hq1⟩ = baseDate := by
      simp [hdays]
    constructor
    · rw [hres 0 hq0, hget0]
      decide
    · rw [hres 1 hq1, hget1]
      decide

/-- C4 witness: the forward mapping at the concrete step 77 of the service
built over the empty holiday table. -/
theorem claim_C4_forward_mapping_witness :
    (∃ hq : 77 / 50 < (precompute_trading_days noHolidays).length,
      ((77 : Nat) % 50 = 0 →
        (TimeService.get_accurate_time (TimeService.init noHolidays) ((77 : Nat) : Int)).1 =
          .ok (formatTime ((precompute_trading_days noHolidays).get ⟨77 / 50, hq⟩) 9 15)) ∧
      (1 ≤ (77 : Nat) % 50 → (77 : Nat) % 50 ≤ 24 →
        (TimeService.get_accurate_time (TimeService.init noHolidays) ((77 : Nat) : Int)).1 =
          .ok (formatTime ((precompute_trading_days noHolidays).get ⟨77 / 50, hq⟩)
            ((570 + ((77 : Nat) % 50 - 1) * 5) / 60) ((570 + ((77 : Nat) % 50 - 1) * 5) % 60))) ∧
      (25 ≤ (77 : Nat) % 50 → (77 : Nat) % 50 ≤ 48 →
        (TimeService.get_accurate_time (TimeService.init noHolidays) ((77 : Nat) : Int)).1 =
          .ok (formatTime ((precompute_trading_days noHolidays).get ⟨77 / 50, hq⟩)
            ((780 + ((77 : Nat) % 50 - 25) * 5) / 60) ((780 + ((77 : Nat) % 50 - 25) * 5) % 60))) ∧
      ((77 : Nat) % 50 = 49 →
        (TimeService.get_accurate_time (TimeService.init noHolidays) ((77 : Nat) : Int)).1 =
          .ok (formatTime ((precompute_trading_days noHolidays).get ⟨77 / 50, hq⟩) 15 0))) ∧
    slot_time 24 = (11, 25) ∧ slot_time 25 = (13, 0) ∧ slot_time 48 = (14, 55) ∧
    (noHolidays baseDate = false →
      (TimeService.get_accurate_time (TimeService.init noHolidays) ((0 : Nat) : Int)).1 =
        .ok ("2019-01-02 09:15") ∧
      (TimeService.get_accurate_time (TimeService.init noHolidays) ((1 : Nat) : Int)).1 =
        .ok ("2019-01-02 09:30")) :=
  claim_C4_forward_mapping noHolidays 77 (by set_option maxRecDepth 4000 in decide)

/-- C5: `get_accurate_time` fails with OutOfRange exactly when
`step div 50 ≥ len(trading_days)`, the error reporting the maximum supported
step `len * 50 - 1`; every step with day index below the calendar length
succeeds, and `len * 50` itself fails OutOfRange. -/
theorem claim_C5_out_of_range (H : Date → Bool) (t : Nat) :
    ((TimeService.get_accurate_time (TimeService.init H) (t : Int)).1 =
        .error (.outOfRange (t : Int)
          (((TimeService.init H).trading_days.length : Int) * 50 - 1)) ↔
      (TimeService.init H).trading_days.length ≤ t / 50) ∧
    (t / 50 < (TimeService.init H).trading_days.length →
      ∃ ts, (TimeService.get_accurate_time (TimeService.init H) (t : Int)).1 = .ok ts) ∧
    ((TimeService.get_accurate_time (TimeService.init H)
        (((TimeService.init H).trading_days.length * 50 : Nat) : Int)).1 =
      .error (.outOfRange (((TimeService.init H).trading_days.length * 50 : Nat) : Int)
        (((TimeService.init H).trading_days.length : Int) * 50 - 1))) := by
  refine ⟨⟨?_, ?_⟩, ?_, ?_⟩
  · intro herr
    by_contra hlt
    push_neg at hlt
    rw [get_accurate_time_empty_cache _ _ rfl,
      compute_time_nat_ok (TimeService.init H).trading_days t hlt] at herr
    exact absurd herr (by simp)
  · intro hge
    rw [get_accurate_time_empty_cache _ _ rfl,
      compute_time_nat_err (TimeService.init H).trading_days t hge]
  · intro hlt
    exact ⟨_, by
      rw [get_accurate_time_empty_cache _ _ rfl,
        compute_time_nat_ok (TimeService.init H).trading_days t hlt]⟩
  · rw [get_accurate_time_empty_cache _ _ rfl,
      compute_time_nat_err (TimeService.init H).trading_days
        ((TimeService.init H).trading_days.length * 50) (by omega)]

/-- C10: the service itself accepts negative steps: for
`-len*50 ≤ step < 0` Python floor division and negative indexing make
`get_accurate_time` succeed (no error), `get_accurate_time(-1)` returning the
15:00 post-close timestamp of the last trading day; only the HTTP route layer
rejects negative steps. -/
theorem claim_C10_negative_step (H : Date → Bool) (t : Int)
    (h1 : -(((TimeService.init H).trading_days.length : Int) * 50) ≤ t) (h2 : t < 0) :
    (∃ ts, (TimeService.get_accurate_time (TimeService.init H) t).1 = .ok ts) ∧
    route_rejects_negative t = true ∧
    (∃ d, (TimeService.init H).trading_days.get?
        ((TimeService.init H).trading_days.length - 1) = some d ∧
      (TimeService.get_accurate_time (TimeService.init H) (-1)).1 =
        .ok (formatTime d 15 0)) := by
  have hN : 1 ≤ (TimeService.init H).trading_days.length := by
    by_contra hc
    push_neg at hc
    have h0 : (TimeService.init H).trading_days.length = 0 := by omega
    rw [h0] at h1
    simp at h1
    omega
  have hok : ∀ u : Int, -(((TimeService.init H).trading_days.length : Int) * 50) ≤ u →
      u < 0 → ∃ ts, (TimeService.get_accurate_time (TimeService.init H) u).1 = .ok ts := by
    intro u hu1 hu2
    obtain ⟨hchar, hr0, hr50⟩ := fmod_fdiv_char u
    have hqlt : u.fdiv 50 < 0 := by omega
    have hqge : -((TimeService.init H).trading_days.length : Int) ≤ u.fdiv 50 := by omega
    have habs : (u.fdiv 50).natAbs ≤ (TimeService.init H).trading_days.length := by omega
    have hidx : (TimeService.init H).trading_days.length - (u.fdiv 50).natAbs <
        (TimeService.init H).trading_days.length := by omega
    rw [get_accurate_time_empty_cache _ _ rfl]
    simp only [compute_time]
    rw [if_neg (by omega)]
    unfold pyGet
    rw [if_neg (by omega), if_pos habs, List.get?_eq_get hidx]
    exact ⟨_, rfl⟩
  refine ⟨hok t h1 h2, ?_, ?_⟩
  · simp only [route_rejects_negative, decide_eq_true_eq]
    exact h2
  · have hidx : (TimeService.init H).trading_days.length - 1 <
        (TimeService.init H).trading_days.length := by omega
    refine ⟨(TimeService.init H).trading_days.get
        ⟨(TimeService.init H).trading_days.length - 1, hidx⟩,
      List.get?_eq_get hidx, ?_⟩
    have hd1 : (-1 : Int).fdiv 50 = -1 := by decide
    have hm1 : (-1 : Int).fmod 50 = 49 := by decide
    rw [get_accurate_time_empty_cache _ _ rfl]
    simp only [compute_time, hd1, hm1]
    rw [if_neg (by omega)]
    unfold pyGet
    rw [if_neg (by omega), show ((-1 : Int)).natAbs = 1 from rfl,
      if_pos (by omega : (1 : Nat) ≤ (TimeService.init H).trading_days.length)]
    rw [List.get?_eq_get hidx]
    rfl

/-- C10 witness: the service accepts the concrete negative step -7 over the
empty holiday table while the route guard rejects it. -/
theorem claim_C10_negative_step_witness :
    (∃ ts, (TimeService.get_accurate_time (TimeService.init noHolidays) (-7)).1 = .ok ts) ∧
    route_rejects_negative (-7) = true ∧
    (∃ d, (TimeService.init noHolidays).trading_days.get?
        ((TimeService.init noHolidays).trading_days.length - 1) = some d ∧
      (TimeService.get_accurate_time (TimeService.init noHolidays) (-1)).1 =
        .ok (formatTime d 15 0)) :=
  claim_C10_negative_step noHolidays (-7) (by set_option maxRecDepth 4000 in decide)
    (by decide)

/-- C7: the calendar builder: `trading_days` holds exactly the valid dates of
the inclusive horizon [2019-01-02, 2020-12-31] with weekday < Saturday that
are not holidays, in strictly increasing date order, and no later operation
(forward conversion, cache clearing) ever mutates it. -/
theorem claim_C7_calendar (H : Date → Bool) (s : TimeService) (t : Int) (x : Date) :
    (x ∈ (TimeService.init H).trading_days ↔
      Valid x ∧ toOrdinal baseDate ≤ toOrdinal x ∧ toOrdinal x ≤ toOrdinal endDate ∧
        weekday x < 5 ∧ H x = false) ∧
    List.Pairwise (fun a b => toOrdinal a < toOrdinal b) (TimeService.init H).trading_days ∧
    (TimeService.get_accurate_time s t).2.trading_days = s.trading_days ∧
    (TimeService.clear_cache s).trading_days = s.trading_days :=
  ⟨mem_trading_days H x, pairwise_trading_days H,
    get_accurate_time_preserves_days s t, rfl⟩

/-- C6 counterexample: 2021-01-04 is a valid Monday that is not excluded by
the weekend/holiday rule (weekday < 5, not a holiday), yet `get_time_step`
raises NotTradingDay for it because it lies outside the precomputed horizon —
refuting the claimed equivalence between "excluded by the weekend/holiday
rule" and "absent from the calendar". -/
theorem claim_C6_counterexample :
    weekday ⟨2021, 1, 4⟩ < 5 ∧ noHolidays ⟨2021, 1, 4⟩ = false ∧ Valid ⟨2021, 1, 4⟩ ∧
    TimeService.get_time_step (TimeService.init noHolidays) ("2021-01-04 09:30") =
      .error (.notTradingDay ⟨2021, 1, 4⟩) :=
  ⟨by decide, rfl, by decide, by set_option maxRecDepth 4000 in decide⟩

/-- C6 amended: `get_time_step` raises NotTradingDay exactly for parseable
inputs whose date is absent from the precomputed calendar — equivalently,
excluded by the weekend/holiday rule **or outside the horizon
[2019-01-02, 2020-12-31]**; unparseable input gives BadFormat instead, and
2019-01-01 (whenever it is in the holiday set) fails NotTradingDay. -/
theorem claim_C6_not_trading_day (H : Date → Bool) (input : String) :
    (∀ d hour minute, parseTime input = some (d, hour, minute) →
      (TimeService.get_time_step (TimeService.init H) input =
          .error (.notTradingDay d) ↔ d ∉ (TimeService.init H).trading_days)) ∧
    (parseTime input = none →
      TimeService.get_time_step (TimeService.init H) input = .error (.badFormat input)) ∧
    (∀ d, d ∉ (TimeService.init H).trading_days ↔
      ¬(Valid d ∧ toOrdinal baseDate ≤ toOrdinal d ∧ toOrdinal d ≤ toOrdinal endDate ∧
        weekday d < 5 ∧ H d = false)) ∧
    (H ⟨2019, 1, 1⟩ = true →
      TimeService.get_time_step (TimeService.init H) ("2019-01-01 09:30") =
        .error (.notTradingDay ⟨2019, 1, 1⟩)) := by
  have hmain : ∀ (inp : String) d hour minute, parseTime inp = some (d, hour, minute) →
      (TimeService.get_time_step (TimeService.init H) inp =
        .error (.notTradingDay d) ↔ d ∉ (TimeService.init H).trading_days) := by
    intro inp d hour minute hp
    simp only [TimeService.get_time_step, hp]
    cases hf : find_day_index (TimeService.init H).trading_days d with
    | none =>
      constructor
      · intro _
        exact (find_day_index_eq_none _ _).1 hf
      · intro _
        rfl
    | some i =>
      have hmem : ¬(d ∉ (TimeService.init H).trading_days) := by
        intro hnm
        rw [(find_day_index_eq_none _ _).2 hnm] at hf
        exact absurd hf (by simp)
      cases hc : classify_step hour minute with
      | none =>
        constructor
        · intro hx
          exact absurd (Except.error.inj hx) (by simp)
        · intro hnm
          exact absurd hnm hmem
      | some sid =>
        constructor
        · intro hx
          exact Except.noConfusion hx
        · intro hnm
          exact absurd hnm hmem
  refine ⟨hmain input, ?_, ?_, ?_⟩
  · intro hp
    simp only [TimeService.get_time_step, hp]
  · intro d
    exact not_congr (mem_trading_days H d)
  · intro hH
    have hp : parseTime ("2019-01-01 09:30") = some (⟨2019, 1, 1⟩, 9, 30) := by decide
    apply (hmain _ _ _ _ hp).2
    intro hmem
    obtain ⟨_, _, _, _, hfalse⟩ := (mem_trading_days H _).1 hmem
    rw [hH] at hfalse
    exact absurd hfalse (by simp)

theorem get_time_step_format (H : Date → Bool) (i : Nat)
    (hi : i < (TimeService.init H).trading_days.length) (hh mm : Nat)
    (h23 : hh ≤ 23) (h59 : mm ≤ 59) (sid : Nat)
    (hclass : classify_step hh mm = some sid) :
    TimeService.get_time_step (TimeService.init H)
      (formatTime ((TimeService.init H).trading_days.get ⟨i, hi⟩) hh mm) =
      .ok (i * 50 + sid) := by
  have hdmem : (TimeService.init H).trading_days.get ⟨i, hi⟩ ∈
      precompute_trading_days H := List.get_mem _ _ _
  obtain ⟨hv, hy1, hy2⟩ := trading_days_elem_facts H _ hdmem
  have hparse := parseTime_formatTime _ hh mm hv hy1 hy2 h23 h59
  have hnodup : (TimeService.init H).trading_days.Nodup := nodup_trading_days H
  simp only [TimeService.get_time_step, hparse,
    find_day_index_get (TimeService.init H).trading_days hnodup i hi, hclass]

/-- C2 counterexample: 2019-01-02 is the first trading day, yet
`get_time_step("2019-01-02 14:55")` returns 48, not `0*50 + 49`: the
hour-14 afternoon branch fires before the post-close branch. -/
theorem claim_C2_counterexample :
    (TimeService.init noHolidays).trading_days.get? 0 = some baseDate ∧
    TimeService.get_time_step (TimeService.init noHolidays) ("2019-01-02 14:55") =
      .ok 48 ∧
    (48 : Nat) ≠ 0 * 50 + 49 :=
  ⟨by set_option maxRecDepth 4000 in decide,
   by set_option maxRecDepth 4000 in decide, by decide⟩

/-- C2 amended: inside the claimed 14:55–15:05 window, only 15:00–15:05 maps
to slot 49 directly; 14:55–14:59 are captured first by the hour-14 afternoon
branch, whose rounding sends 14:55–14:57 to slot 48 and 14:58–14:59 to
slot 49. -/
theorem claim_C2_post_close_window (H : Date → Bool) (i : Nat)
    (hi : i < (TimeService.init H).trading_days.length) (mi : Nat) :
    (55 ≤ mi → mi ≤ 57 →
      TimeService.get_time_step (TimeService.init H)
        (formatTime ((TimeService.init H).trading_days.get ⟨i, hi⟩) 14 mi) =
        .ok (i * 50 + 48)) ∧
    (58 ≤ mi → mi ≤ 59 →
      TimeService.get_time_step (TimeService.init H)
        (formatTime ((TimeService.init H).trading_days.get ⟨i, hi⟩) 14 mi) =
        .ok (i * 50 + 49)) ∧
    (mi ≤ 5 →
      TimeService.get_time_step (TimeService.init H)
        (formatTime ((TimeService.init H).trading_days.get ⟨i, hi⟩) 15 mi) =
        .ok (i * 50 + 49)) := by
  refine ⟨?_, ?_, ?_⟩
  · intro ha hb
    exact get_time_step_format H i hi 14 mi (by omega) (by omega) 48
      (by interval_cases mi <;> decide)
  · intro ha hb
    exact get_time_step_format H i hi 14 mi (by omega) (by omega) 49
      (by interval_cases mi <;> decide)
  · intro ha
    exact get_time_step_format H i hi 15 mi (by omega) (by omega) 49
      (by interval_cases mi <;> decide)

/-- C2 amended witness: the boundary minute 14:55 of the first trading day of
the empty-holiday service classifies as slot 48 and 15:00 as slot 49. -/
theorem claim_C2_post_close_window_witness :
    (55 ≤ 55 → 55 ≤ 57 →
      TimeService.get_time_step (TimeService.init noHolidays)
        (formatTime ((TimeService.init noHolidays).trading_days.get
          ⟨0, by set_option maxRecDepth 4000 in decide⟩) 14 55) =
        .ok (0 * 50 + 48)) ∧
    (58 ≤ 55 → 55 ≤ 59 →
      TimeService.get_time_step (TimeService.init noHolidays)
        (formatTime ((TimeService.init noHolidays).trading_days.get
          ⟨0, by set_option maxRecDepth 4000 in decide⟩) 14 55) =
        .ok (0 * 50 + 49)) ∧
    (55 ≤ 5 →
      TimeService.get_time_step (TimeService.init noHolidays)
        (formatTime ((TimeService.init noHolidays).trading_days.get
          ⟨0, by set_option maxRecDepth 4000 in decide⟩) 15 55) =
        .ok (0 * 50 + 49)) :=
  claim_C2_post_close_window noHolidays 0
    (by set_option maxRecDepth 4000 in decide) 55

/-- C3 counterexample: on the first trading day, the in-window time 11:30
maps to 25, which is not of the form `0*50 + s` with `1 ≤ s ≤ 24`. -/
theorem claim_C3_counterexample :
    (TimeService.init noHolidays).trading_days.get? 0 = some baseDate ∧
    TimeService.get_time_step (TimeService.init noHolidays) ("2019-01-02 11:30") =
      .ok 25 ∧
    ¬∃ sid, 1 ≤ sid ∧ sid ≤ 24 ∧ (25 : Nat) = 0 * 50 + sid := by
  refine ⟨by set_option maxRecDepth 4000 in decide,
    by set_option maxRecDepth 4000 in decide, ?_⟩
  rintro ⟨sid, ha, hb, hc⟩
  omega

/-- C3 amended: for every trading day and minute-precision time from 09:30
through 11:30, the slot is `1 + round(minutes_since_0930 / 5)`; this lies in
1..24 for times up to 11:27, while 11:28–11:30 round up to 25 (the first
afternoon slot), so the claimed range 1..24 holds only up to 11:27. -/
theorem claim_C3_morning_session (H : Date → Bool) (i : Nat)
    (hi : i < (TimeService.init H).trading_days.length) (hh mi : Nat)
    (hwin : (hh = 9 ∧ 30 ≤ mi ∧ mi ≤ 59) ∨ (hh = 10 ∧ mi ≤ 59) ∨
      (hh = 11 ∧ mi ≤ 30)) :
    TimeService.get_time_step (TimeService.init H)
      (formatTime ((TimeService.init H).trading_days.get ⟨i, hi⟩) hh mi) =
      .ok (i * 50 + (1 + round_to_slot (hh * 60 + mi - 570))) ∧
    (hh * 60 + mi ≤ 687 →
      1 ≤ 1 + round_to_slot (hh * 60 + mi - 570) ∧
        1 + round_to_slot (hh * 60 + mi - 570) ≤ 24) ∧
    (688 ≤ hh * 60 + mi → 1 + round_to_slot (hh * 60 + mi - 570) = 25) := by
  have hclass : classify_step hh mi = some (1 + round_to_slot (hh * 60 + mi - 570)) := by
    rcases hwin with ⟨he, h1, h2⟩ | ⟨he, h2⟩ | ⟨he, h2⟩ <;> subst he <;>
      interval_cases mi <;> decide
  refine ⟨?_, ?_, ?_⟩
  · apply get_time_step_format H i hi hh mi
      (by rcases hwin with ⟨he, h'⟩ | ⟨he, h'⟩ | ⟨he, h'⟩ <;> omega)
      (by rcases hwin with ⟨he, h'⟩ | ⟨he, h'⟩ | ⟨he, h'⟩ <;> omega) _ hclass
  · intro hle
    unfold round_to_slot
    rcases hwin with ⟨he, h1, h2⟩ | ⟨he, h2⟩ | ⟨he, h2⟩ <;> subst he <;> omega
  · intro hge
    unfold round_to_slot
    rcases hwin with ⟨he, h1, h2⟩ | ⟨he, h2⟩ | ⟨he, h2⟩ <;> subst he <;> omega

/-- C3 amended witness: 11:30 on the first trading day of the empty-holiday
service maps to step 25 with the rounding formula, landing outside 1..24. -/
theorem claim_C3_morning_session_witness :
    TimeService.get_time_step (TimeService.init noHolidays)
      (formatTime ((TimeService.init noHolidays).trading_days.get
        ⟨0, by set_option maxRecDepth 4000 in decide⟩) 11 30) =
      .ok (0 * 50 + (1 + round_to_slot (11 * 60 + 30 - 570))) ∧
    (11 * 60 + 30 ≤ 687 →
      1 ≤ 1 + round_to_slot (11 * 60 + 30 - 570) ∧
        1 + round_to_slot (11 * 60 + 30 - 570) ≤ 24) ∧
    (688 ≤ 11 * 60 + 30 → 1 + round_to_slot (11 * 60 + 30 - 570) = 25) :=
  claim_C3_morning_session noHolidays 0 (by set_option maxRecDepth 4000 in decide)
    11 30 (by omega)

/-- C8: the result cache never exceeds 10000 entries: a successful conversion
inserts its pair only while the size is strictly below 10000; at the cap the
insert is silently dropped (same result, unchanged state, no error); every
call preserves the bound, `clear_cache` resets to empty, and a fresh service
starts empty. -/
theorem claim_C8_cache_bound (H : Date → Bool) (s : TimeService) (t : Int) (r : String) :
    (s.result_cache.length ≤ 10000 →
      (TimeService.get_accurate_time s t).2.result_cache.length ≤ 10000) ∧
    (cache_lookup s.result_cache t = none → compute_time s.trading_days t = .ok r →
      (s.result_cache.length < 10000 →
        (TimeService.get_accurate_time s t).2.result_cache = (t, r) :: s.result_cache) ∧
      (10000 ≤ s.result_cache.length →
        (TimeService.get_accurate_time s t).1 = .ok r ∧
        (TimeService.get_accurate_time s t).2 = s)) ∧
    (TimeService.clear_cache s).result_cache = [] ∧
    (TimeService.init H).result_cache = [] := by
  refine ⟨?_, ?_, rfl, rfl⟩
  · intro hle
    unfold TimeService.get_accurate_time
    cases h1 : cache_lookup s.result_cache t with
    | some v => exact hle
    | none =>
      cases h2 : compute_time s.trading_days t with
      | error e => exact hle
      | ok w =>
        by_cases hlen : s.result_cache.length < 10000
        · simp only [if_pos hlen, List.length_cons]
          omega
        · simp only [if_neg hlen]
          exact hle
  · intro hnone hok
    constructor
    · intro hlen
      simp only [TimeService.get_accurate_time, hnone, hok, if_pos hlen]
    · intro hge
      have hlen : ¬s.result_cache.length < 10000 := by omega
      simp [TimeService.get_accurate_time, hnone, hok, hlen]

theorem get_accurate_time_result (s : TimeService) (t : Int) (hs : CacheOK s) :
    (TimeService.get_accurate_time s t).1 = compute_time s.trading_days t := by
  unfold TimeService.get_accurate_time
  cases h1 : cache_lookup s.result_cache t with
  | some v => exact (hs t v h1).symm
  | none =>
    cases h2 : compute_time s.trading_days t with
    | error e => rfl
    | ok r =>
      by_cases hlen : s.result_cache.length < 10000
      · simp only [if_pos hlen]
      · simp only [if_neg hlen]

theorem cacheOK_init (H : Date → Bool) : CacheOK (TimeService.init H) := by
  intro t v hl
  exact absurd hl (by simp [TimeService.init, cache_lookup])

theorem cacheOK_clear (s : TimeService) : CacheOK (TimeService.clear_cache s) := by
  intro t v hl
  exact absurd hl (by simp [TimeService.clear_cache, cache_lookup])

theorem cacheOK_preserved (s : TimeService) (t : Int) (hs : CacheOK s) :
    CacheOK (TimeService.get_accurate_time s t).2 := by
  unfold TimeService.get_accurate_time
  cases h1 : cache_lookup s.result_cache t with
  | some v => exact hs
  | none =>
    cases h2 : compute_time s.trading_days t with
    | error e => exact hs
    | ok r =>
      by_cases hlen : s.result_cache.length < 10000
      · simp only [if_pos hlen]
        intro u v hl
        simp only [cache_lookup] at hl
        by_cases he : t = u
        · subst he
          rw [if_pos rfl] at hl
          injection hl with hv
          subst hv
          exact h2
        · rw [if_neg he] at hl
          exact hs u v hl
      · simp only [if_neg hlen]
        exact hs

/-- C9: the cache is transparent: on any cache-consistent state the value
returned by `get_accurate_time` equals the cache-free recomputation
(`compute_time`), cache consistency is preserved by every call and holds for
fresh and cleared services, clearing the cache never changes any result, and
repeated calls with the same or different steps return identical output. -/
theorem claim_C9_cache_transparent (H : Date → Bool) (s : TimeService) (t u : Int)
    (hs : CacheOK s) :
    (TimeService.get_accurate_time s t).1 = compute_time s.trading_days t ∧
    CacheOK (TimeService.get_accurate_time s t).2 ∧
    CacheOK (TimeService.init H) ∧
    (TimeService.get_accurate_time (TimeService.clear_cache s) t).1 =
      (TimeService.get_accurate_time s t).1 ∧
    (TimeService.get_accurate_time (TimeService.get_accurate_time s u).2 t).1 =
      (TimeService.get_accurate_time s t).1 := by
  refine ⟨get_accurate_time_result s t hs, cacheOK_preserved s t hs, cacheOK_init H,
    ?_, ?_⟩
  · rw [get_accurate_time_result _ t (cacheOK_clear s), get_accurate_time_result s t hs]
    rfl
  · rw [get_accurate_time_result _ t (cacheOK_preserved s u hs),
      get_accurate_time_result s t hs, get_accurate_time_preserves_days]

/-- C9 witness: transparency instantiated on the fresh empty-holiday service
at steps 2 and 3, the CacheOK hypothesis discharged for the initial state. -/
theorem claim_C9_cache_transparent_witness :
    (TimeService.get_accurate_time (TimeService.init noHolidays) 2).1 =
      compute_time (TimeService.init noHolidays).trading_days 2 ∧
    CacheOK (TimeService.get_accurate_time (TimeService.init noHolidays) 2).2 ∧
    CacheOK (TimeService.init noHolidays) ∧
    (TimeService.get_accurate_time
        (TimeService.clear_cache (TimeService.init noHolidays)) 2).1 =
      (TimeService.get_accurate_time (TimeService.init noHolidays) 2).1 ∧
    (TimeService.get_accurate_time
        (TimeService.get_accurate_time (TimeService.init noHolidays) 3).2 2).1 =
      (TimeService.get_accurate_time (TimeService.init noHolidays) 2).1 :=
  claim_C9_cache_transparent noHolidays (TimeService.init noHolidays) 2 3
    (cacheOK_init noHolidays)
